import Mathlib

/-!
# Formal model of the TerrAInav-Sim raster-mission subsystem

A shallow embedding of the raster-mission planning and tile-stitching code of
`src/data/terrainav.py` and `src/utils/geo_helper.py`, together with theorems
checking the natural-language specification's claims against it.

Modelling conventions:
* Python floats are idealised as `ℚ` where the code only does field arithmetic
  and comparisons, and as `ℝ` where it calls transcendental functions
  (`math.log`, `math.tan`, ...).
* Python `int(x)` is truncation toward zero (`pyIntQ` / `pyIntR`).
* Raised exceptions are modelled as error values (`PyErr`); a function that can
  raise returns `Except PyErr _` or an `Option PyErr` component.
* `pyproj` coordinate transforms (`geo2utm` / `utm2geo`) are external library
  calls; they appear as abstract function parameters of the mission model.
* File names are modelled as `List Char`.
-/

/-- Python `int()` applied to a rational: truncation toward zero. -/
def pyIntQ (q : ℚ) : ℤ := if 0 ≤ q then ⌊q⌋ else ⌈q⌉

/-- Python `int()` applied to a real: truncation toward zero. -/
noncomputable def pyIntR (x : ℝ) : ℤ := if 0 ≤ x then ⌊x⌋ else ⌈x⌉

/-- Python `round(q)` to an integer: banker's rounding (ties go to the even
neighbour), idealised on `ℚ`. -/
def pyRoundInt (q : ℚ) : ℤ :=
  if q - ⌊q⌋ = 1/2 then (if 2 ∣ ⌊q⌋ then ⌊q⌋ else ⌊q⌋ + 1) else round q

/-- Python `round(q, 7)`: round to 7 decimal places. -/
def round7 (q : ℚ) : ℚ := (pyRoundInt (q * 10^7) : ℚ) / 10^7

/-- Decimal digits of a natural number, most significant first.  Fuel-based so
that it is structurally recursive (the fuel `n + 1` always suffices). -/
def natDigitsAux : ℕ → ℕ → List Char
  | 0, _ => []
  | fuel + 1, n =>
    if n < 10 then [Nat.digitChar n]
    else natDigitsAux fuel (n / 10) ++ [Nat.digitChar (n % 10)]

/-- Python `str` of a natural number. -/
def natChars (n : ℕ) : List Char := natDigitsAux (n + 1) n

/-- Python `str` of an integer. -/
def intChars (z : ℤ) : List Char :=
  if z < 0 then '-' :: natChars z.natAbs else natChars z.natAbs

/-- Remove trailing `'0'` characters. -/
def stripZeros (l : List Char) : List Char :=
  (l.reverse.dropWhile (fun c => c = '0')).reverse

/-- Fractional part `m / 10^7` rendered the way Python `str` renders a float's
fraction: 7 digits, left-padded with zeros, trailing zeros removed, at least
one digit. -/
def fracChars7 (m : ℕ) : List Char :=
  let padded := List.replicate (7 - (natChars m).length) '0' ++ natChars m
  let s := stripZeros padded
  if s.isEmpty then ['0'] else s

/-- Python `str(x)` for the float `x = k / 10^7` (the result of `round(_, 7)`),
in the fixed-point rendering regime: sign, integer part, `'.'`, fraction with
trailing zeros dropped.  (Python switches to scientific notation only for
`|x| < 1e-4`, which never happens for the geographic coordinates at hand.) -/
def strScaled7 (k : ℤ) : List Char :=
  (if k < 0 then ['-'] else []) ++
    natChars (k.natAbs / 10^7) ++ '.' :: fracChars7 (k.natAbs % 10^7)

/-- Python `str(round(q, 7))`. -/
def strRound7 (q : ℚ) : List Char := strScaled7 (pyRoundInt (q * 10^7))

/-- Python `s.split(c)` on character lists. -/
def splitOnChar (c : Char) : List Char → List (List Char)
  | [] => [[]]
  | x :: xs =>
    match splitOnChar c xs with
    | [] => []
    | f :: r => if x = c then [] :: f :: r else (x :: f) :: r

/-- Python `s[:-n]` on character lists. -/
def pyDropRight (l : List Char) (n : ℕ) : List Char := l.take (l.length - n)

/-- Value of a decimal digit character, `none` otherwise. -/
def digitVal (c : Char) : Option ℕ :=
  if '0' ≤ c ∧ c ≤ '9' then some (c.toNat - '0'.toNat) else none

/-- Accumulating decimal parse of a digit string. -/
def parseNatAux : List Char → ℕ → Option ℕ
  | [], acc => some acc
  | c :: cs, acc =>
    match digitVal c with
    | some d => parseNatAux cs (acc * 10 + d)
    | none => none

/-- Python `int(s)`: optional sign followed by at least one decimal digit
(`none` models the raised `ValueError`). -/
def parseInt (l : List Char) : Option ℤ :=
  match l with
  | [] => none
  | '-' :: rest =>
    if rest.isEmpty then none else (parseNatAux rest 0).map (fun n => -(n : ℤ))
  | '+' :: rest =>
    if rest.isEmpty then none else (parseNatAux rest 0).map (fun n => (n : ℤ))
  | l => (parseNatAux l 0).map (fun n => (n : ℤ))

/-- Unsigned decimal mantissa `ddd`, `ddd.ddd`, `.ddd` or `ddd.` of a Python
float literal. -/
def parseDecMantissa (l : List Char) : Option ℚ :=
  match splitOnChar '.' l with
  | [ip] => if ip.isEmpty then none else (parseNatAux ip 0).map (fun n => (n : ℚ))
  | [ip, fp] =>
    if ip.isEmpty ∧ fp.isEmpty then none
    else
      match parseNatAux ip 0, parseNatAux fp 0 with
      | some n, some f => some ((n : ℚ) + (f : ℚ) / 10 ^ fp.length)
      | _, _ => none
  | _ => none

/-- Python `float(s)` on the decimal forms `[sign] mantissa [e [sign] digits]`
(`inf`/`nan` and underscore separators are not modelled; the mission's file
names never use them).  `none` models the raised `ValueError`. -/
def parseFloat (l : List Char) : Option ℚ :=
  let signed : List Char × Bool :=
    match l with
    | '-' :: rest => (rest, true)
    | '+' :: rest => (rest, false)
    | l => (l, false)
  let mag : Option ℚ :=
    match splitOnChar 'e' (signed.1.map (fun c => if c = 'E' then 'e' else c)) with
    | [mant] => parseDecMantissa mant
    | [mant, ex] =>
      match parseDecMantissa mant, parseInt ex with
      | some q, some e => some (q * 10 ^ e)
      | _, _ => none
    | _ => none
  mag.map (fun q => if signed.2 then -q else q)

/-- Exceptions observable on the modelled code paths. -/
inductive PyErr
  | outOfBounds
  | valueError
  | pilValueError
deriving DecidableEq

/-- One produced raster cell: its grid indices and the file name it is saved
under (`terrAInav.gen_raster_from_map`, loop body). -/
structure Cell where
  i : ℤ
  j : ℤ
  name : List Char
deriving DecidableEq

/-- Mission-level quantities fixed before the grid walk of
`terrAInav.gen_raster_from_map` starts: grid dimensions and cell footprint from
`check_data` (`log.n_raster_imgs`, `log.single_img_size`), the projected
top-left corner `tlm`, the requested corner coordinates, the per-cell zoom, and
the `pyproj` transforms for the mission's UTM zone (external library calls,
abstracted as functions). -/
structure RasterParams where
  n_images_x : ℤ
  n_images_y : ℤ
  raster_wx : ℚ
  raster_wy : ℚ
  overlap : ℚ
  tlm : ℚ × ℚ
  top_left_coords : ℚ × ℚ
  bottom_right_coords : ℚ × ℚ
  raster_zoom : ℤ
  geo2utm : ℚ × ℚ → ℚ × ℚ
  utm2geo : ℚ × ℚ → ℚ × ℚ

/-- `out_name = str(i) + '_' + str(j) + '_' + str(round(phi, 7)) + '_' +
str(round(lamda, 7)) + '_' + str(raster_zoom) + '.jpg'`. -/
def out_name (i j : ℤ) (phi lamda : ℚ) (zoom : ℤ) : List Char :=
  intChars i ++ '_' ::
    (intChars j ++ '_' ::
      (strRound7 phi ++ '_' ::
        (strRound7 lamda ++ '_' ::
          (intChars zoom ++ ['.', 'j', 'p', 'g']))))

/-- The walk's bounds check:
`phi < bottom_right_coords[0] - raster_wx - 0.02 or
 lamda > bottom_right_coords[1] + raster_wy + 0.02`. -/
def oobCond (P : RasterParams) (phi lamda : ℚ) : Prop :=
  phi < P.bottom_right_coords.1 - P.raster_wx - 1/50 ∨
    lamda > P.bottom_right_coords.2 + P.raster_wy + 1/50

instance (P : RasterParams) (phi lamda : ℚ) : Decidable (oobCond P phi lamda) := by
  unfold oobCond
  infer_instance

/-- Inner `while i < n_images_x` loop of `gen_raster_from_map`.  The fuel is
the number of remaining iterations `(n_images_x - i).toNat`, so the recursion
is structural.  Each iteration: bounds check (raising `OutOfBounds`), save the
cell under `out_name`, step east by `raster_wx * (100 - overlap) / 100` in the
projected frame and recompute only the longitude (`_, lamda = utm2geo(x, y)`). -/
def walkRowAux (P : RasterParams) : ℕ → ℤ → ℤ → ℚ → ℚ → ℚ → ℚ → List Cell × Option PyErr
  | 0, _, _, _, _, _, _ => ([], none)
  | fuel + 1, i, j, x, y, phi, lamda =>
    if oobCond P phi lamda then ([], some .outOfBounds)
    else
      let c : Cell := ⟨i, j, out_name i j phi lamda P.raster_zoom⟩
      let x2 := x + P.raster_wx * (100 - P.overlap) / 100
      let lamda2 := (P.utm2geo (x2, y)).2
      let rest := walkRowAux P fuel (i + 1) j x2 y phi lamda2
      (c :: rest.1, rest.2)

/-- Outer `for j in range(j_last, n_images_y)` loop of `gen_raster_from_map`.
The fuel is the number of remaining rows.  After each row completes normally:
step south by `raster_wy * (100 - overlap) / 100`, reset `x` to `x_left =
tlm[0]`, recompute `(phi, lamda)`, and the next row starts at column 0.
An exception inside a row propagates, keeping the cells already saved. -/
def walkRowsAux (P : RasterParams) : ℕ → ℤ → ℤ → ℚ → ℚ → ℚ → ℚ → List Cell × Option PyErr
  | 0, _, _, _, _, _, _ => ([], none)
  | fuel + 1, j, i0, x, y, phi, lamda =>
    let row := walkRowAux P (P.n_images_x - i0).toNat i0 j x y phi lamda
    match row.2 with
    | some e => (row.1, some e)
    | none =>
      let y2 := y - P.raster_wy * (100 - P.overlap) / 100
      let x2 := P.tlm.1
      let pl := P.utm2geo (x2, y2)
      let rest := walkRowsAux P fuel (j + 1) 0 x2 y2 pl.1 pl.2
      (row.1 ++ rest.1, rest.2)

/-- Resume-cursor computation of `gen_raster_from_map` (the non-complete
branch): if not at the last column, advance the column and step east by
`raster_wx * (100 - overlap) / 100`; otherwise wrap to column 0 of the next
row, step south by `raster_wy * (100 - overlap) / 100` and reset `x` to
`x_left = tlm[0]`.  Returns `(i, j, x, y)` of the next cell to download. -/
def resume_cursor (P : RasterParams) (i_last j_last : ℤ) (x y : ℚ) : ℤ × ℤ × ℚ × ℚ :=
  if i_last < P.n_images_x - 1 then
    (i_last + 1, j_last, x + P.raster_wx * (100 - P.overlap) / 100, y)
  else
    (0, j_last + 1, P.tlm.1, y - P.raster_wy * (100 - P.overlap) / 100)

/-- `i_last, j_last, phi, lamda, _ = last_img_name[:-4].split('_')` followed by
`int`/`float` conversions; `none` models the raised exception (unpacking error
for a wrong field count, `ValueError` for a failed conversion).  The fifth
field (the zoom) is bound to `_` in the source and never converted. -/
def parse_img_name (nm : List Char) : Option (ℤ × ℤ × ℚ × ℚ) :=
  match splitOnChar '_' (pyDropRight nm 4) with
  | [a, b, c, d, _] =>
    match parseInt a, parseInt b, parseFloat c, parseFloat d with
    | some i, some j, some p, some l => some (i, j, p, l)
    | _, _, _, _ => none
  | _ => none

/-- Model of `terrAInav.gen_raster_from_map`.  `last_img_name = none` models
the sentinel `-1` (no file downloaded yet).  The confirmation prompt is assumed
answered `yes` (the claims are about the downloading path).  Returns the cells
saved, in order, and the exception that ended the walk, if any. -/
def gen_raster_from_map (P : RasterParams) (last_img_name : Option (List Char)) :
    List Cell × Option PyErr :=
  match last_img_name with
  | none =>
    walkRowsAux P P.n_images_y.toNat 0 0 P.tlm.1 P.tlm.2
      P.top_left_coords.1 P.top_left_coords.2
  | some nm =>
    match parse_img_name nm with
    | none => ([], some .valueError)
    | some (i_last, j_last, phi, lamda) =>
      let xy := P.geo2utm (phi, lamda)
      if i_last + 1 = P.n_images_x ∧ j_last + 1 = P.n_images_y then ([], none)
      else
        let c := resume_cursor P i_last j_last xy.1 xy.2
        let pl := P.utm2geo (c.2.2.1, c.2.2.2)
        walkRowsAux P (P.n_images_y - c.2.1).toNat c.2.1 c.1 c.2.2.1 c.2.2.2 pl.1 pl.2

/-- Grid dimension per axis from `terrAInav.check_data`:
`int(map_size_m / (single_img_size_m * (1 - overlap)))`, applied once to the x
axis and once to the y axis and stored in `log.n_raster_imgs`; it is read, not
recomputed, by `gen_raster_from_map`. -/
def n_raster_imgs (map_size_m single_img_size_m overlap : ℚ) : ℤ :=
  pyIntQ (map_size_m / (single_img_size_m * (1 - overlap)))

/-- Modelled from the spec: `src/utils/consts.py` is imported by
`geo_helper.py` but absent from `src/`.  `consts.tile_size` is "the service's
maximum static image size, here 640 px". -/
def tile_size : ℝ := 640

/-- Modelled from the spec: `consts.tile_center_p`, the world-pixel centre of
the 256-px Web-Mercator reference canvas used to project corners "to Mercator
pixel space at a reference zoom". -/
def tile_center_p : ℝ × ℝ := (128, 128)

/-- Modelled from the spec: `consts.pixel_per_degree = 256 / 360` of the
256-px reference canvas. -/
noncomputable def pixel_per_degree : ℝ := 256 / 360

/-- Modelled from the spec: `consts.pixel_per_radian = 256 / (2π)` of the
256-px reference canvas. -/
noncomputable def pixel_per_radian : ℝ := 256 / (2 * Real.pi)

/-- `math.radians`. -/
noncomputable def rad (d : ℝ) : ℝ := d * Real.pi / 180

/-- `latlonToPt` inside `geo_helper.get_zoom_from_bounds`: project a geographic
point to Web-Mercator world-pixel coordinates, with the latitude sine clamped
to `±(1 - 1e-15)`. -/
noncomputable def latlonToPt (lat lon : ℝ) : ℝ × ℝ :=
  let a := min (max (Real.sin (rad lat)) (-(1 - 1e-15))) (1 - 1e-15)
  (tile_center_p.1 + lon * pixel_per_degree,
   tile_center_p.2 + 0.5 * Real.log ((1 + a) / (1 - a)) * (-pixel_per_radian))

/-- The zoom selection of `geo_helper.get_zoom_from_bounds` after the corner
projection: `zoom = int(-log2(max(half_pw_x, half_pw_y) / img_size) - 1)`,
`img_w/h = int(half_pw * 2^(zoom+1))`, raising `OutOfBounds` when
`zoom > zoom_bound`.  Returns `(zoom, img_w, img_h)`. -/
noncomputable def zoomSelect (half_pw_x half_pw_y : ℝ) (zoom_bound : ℤ) :
    Except PyErr (ℤ × ℤ × ℤ) :=
  let zoom := pyIntR (-Real.logb 2 (max half_pw_x half_pw_y / tile_size) - 1)
  let scaling : ℝ := 2 ^ (zoom + 1)
  let img_w := pyIntR (half_pw_x * scaling)
  let img_h := pyIntR (half_pw_y * scaling)
  if zoom > zoom_bound then .error .outOfBounds else .ok (zoom, img_w, img_h)

/-- Model of `geo_helper.get_zoom_from_bounds` (default `zoom_bound = 22`):
project both corners with `latlonToPt`, halve the pixel spans, select zoom. -/
noncomputable def get_zoom_from_bounds (top_left bottom_right : ℝ × ℝ) :
    Except PyErr (ℤ × ℤ × ℤ) :=
  let cp_tl := latlonToPt top_left.1 top_left.2
  let cp_br := latlonToPt bottom_right.1 bottom_right.2
  zoomSelect ((cp_br.1 - cp_tl.1) / 2) ((cp_br.2 - cp_tl.2) / 2) 22

/-- `generate_tile_info` inside `geo_helper.collect_tiles`: slippy-map tile
index and in-tile pixel offset of a geographic point `lat, lon = loc` at a
zoom level.  Returns `(tile_x, tile_y, pixel_x, pixel_y)`. -/
noncomputable def generate_tile_info (lat lon : ℝ) (zoom : ℤ) : ℤ × ℤ × ℤ × ℤ :=
  let n : ℝ := 2 ^ zoom
  let tile_x := (lon + 180) / 360 * n
  let tile_y :=
    (1 - Real.log (Real.tan (rad lat) + 1 / Real.cos (rad lat)) / Real.pi) / 2 * n
  (pyIntR tile_x, pyIntR tile_y,
   pyIntR (tile_x * 256 - (pyIntR tile_x : ℝ) * 256),
   pyIntR (tile_y * 256 - (pyIntR tile_y : ℝ) * 256))

/-- `zoom = min(zoom + resolution, 22)` at the top of `collect_tiles`. -/
def effectiveZoom (zoom resolution : ℤ) : ℤ := min (zoom + resolution) 22

/-- `n_tiles_x = br_info[0] - tl_info[0] + 1` of `collect_tiles`: the corner
tile-index span plus one. -/
noncomputable def nTilesX (tl br : ℝ × ℝ) (z : ℤ) : ℤ :=
  (generate_tile_info br.1 br.2 z).1 - (generate_tile_info tl.1 tl.2 z).1 + 1

/-- `n_tiles_y = br_info[1] - tl_info[1] + 1` of `collect_tiles`. -/
noncomputable def nTilesY (tl br : ℝ × ℝ) (z : ℤ) : ℤ :=
  (generate_tile_info br.1 br.2 z).2.1 - (generate_tile_info tl.1 tl.2 z).2.1 + 1

/-- Python `range(a, b + 1)` as a list of integers. -/
def intRange (a b : ℤ) : List ℤ :=
  (List.range (b + 1 - a).toNat).map (fun k : ℕ => a + (k : ℤ))

/-- Observable outcome of one `collect_tiles` invocation: the effective zoom,
the allocated canvas size, the crop window size, and the tile ids fetched (in
submission order). -/
structure StitchResult where
  effZoom : ℤ
  canvasW : ℤ
  canvasH : ℤ
  imgW : ℤ
  imgH : ℤ
  fetched : List (ℤ × ℤ)
deriving DecidableEq

/-- Map layer requested from the tile server. -/
inductive MapType
  | satellite
  | roadmap
  | terrain
deriving DecidableEq

/-- Model of `geo_helper.collect_tiles`: clamp the zoom
(`zoom = min(zoom + resolution, 22)`), compute the corner tile infos, the tile
counts `n_tiles = index span + 1`, the crop window, allocate the canvas
(`Image.new` raises `ValueError` on a negative size), and fetch every tile in
the rectangular index range (y outer, x inner).  Per-tile fetch failures are
swallowed inside `fetch_and_paste`, so they never surface here. -/
noncomputable def collect_tiles (tl br : ℝ × ℝ) (zoom resolution : ℤ)
    (_map_type : MapType) : Except PyErr StitchResult :=
  let z := effectiveZoom zoom resolution
  let tl_info := generate_tile_info tl.1 tl.2 z
  let br_info := generate_tile_info br.1 br.2 z
  let n_tiles_x := br_info.1 - tl_info.1 + 1
  let n_tiles_y := br_info.2.1 - tl_info.2.1 + 1
  let img_w := |br_info.2.2.1 + 256 * (n_tiles_x - 1) - tl_info.2.2.1|
  let img_h := |br_info.2.2.2 + 256 * (n_tiles_y - 1) - tl_info.2.2.2|
  if n_tiles_x * 256 < 0 ∨ n_tiles_y * 256 < 0 then .error .pilValueError
  else
    .ok ⟨z, n_tiles_x * 256, n_tiles_y * 256, img_w, img_h,
      (intRange tl_info.2.1 br_info.2.1).flatMap
        (fun ty => (intRange tl_info.1 br_info.1).map (fun tx => (tx, ty)))⟩

/-- Model of `geo_helper.get_map_dim_m`: diagonal
`d = 2 * agl_m * tan(radians(fov_d / 2))`, width `d * sin(atan aspect_ratio)`,
height `d * cos(atan aspect_ratio)`, and the altitude, with no input
validation of any kind. -/
noncomputable def get_map_dim_m (fov_d agl_m aspect_ratio : ℝ) : ℝ × ℝ × ℝ :=
  let d_m := 2 * agl_m * Real.tan (rad (fov_d / 2))
  (d_m * Real.sin (Real.arctan aspect_ratio),
   d_m * Real.cos (Real.arctan aspect_ratio),
   agl_m)

/-- The name rendering claimed by the spec's file-naming contract
(`{col}_{row}_{lat:.7f}_{lon:.7f}_{zoom}.jpg`): latitude and longitude with
exactly seven decimal places.  Stated from the spec's words, to be compared
with `out_name`, which is translated from the source. -/
def spec_out_name (i j : ℤ) (phi lamda : ℚ) (zoom : ℤ) : List Char :=
  let fixed7 : ℚ → List Char := fun q =>
    let k := pyRoundInt (q * 10^7)
    (if k < 0 then ['-'] else []) ++
      natChars (k.natAbs / 10^7) ++ '.' ::
        (List.replicate (7 - (natChars (k.natAbs % 10^7)).length) '0' ++
          natChars (k.natAbs % 10^7))
  intChars i ++ '_' ::
    (intChars j ++ '_' ::
      (fixed7 phi ++ '_' ::
        (fixed7 lamda ++ '_' ::
          (intChars zoom ++ ['.', 'j', 'p', 'g']))))

/-- Holds when `get_zoom_from_bounds` returns normally with a pixel height
exceeding the 640-px maximum canvas size. -/
def zoomResultViolates (r : Except PyErr (ℤ × ℤ × ℤ)) : Prop :=
  match r with
  | Except.ok (_, _, ih) => 640 < ih
  | Except.error _ => False

/-- A small concrete 3×2 mission (1 m cells, no overlap, identity projections,
far-away bottom-right corner) used to instantiate the mission-level theorems. -/
def sampleParams : RasterParams :=
  ⟨3, 2, 1, 1, 0, (0, 0), (35, -90), (-1000, 1000), 19, fun p => p, fun p => p⟩

/-- Cells produced by the inner column loop all belong to row `j` and start at
column `i` or later. -/
theorem walkRowAux_mem (P : RasterParams) :
    ∀ (fuel : ℕ) (i j : ℤ) (x y phi lamda : ℚ) (c : Cell),
      c ∈ (walkRowAux P fuel i j x y phi lamda).1 → c.j = j ∧ i ≤ c.i := by
  intro fuel
  induction fuel with
  | zero =>
    intro i j x y phi lamda c hc
    simp [walkRowAux] at hc
  | succ n ih =>
    intro i j x y phi lamda c hc
    rw [walkRowAux] at hc
    by_cases h : oobCond P phi lamda
    · simp [h] at hc
    · simp only [if_neg h] at hc
      rcases List.mem_cons.mp hc with rfl | hmem
      · exact ⟨rfl, le_refl i⟩
      · obtain ⟨hj, hi⟩ := ih (i + 1) j _ y phi _ c hmem
        exact ⟨hj, by omega⟩

/-- Cells produced by the row loop starting at row `j`, column `i0`, belong to
row `j` or later; cells of row `j` itself are at column `i0` or later, and all
columns are nonnegative whenever `i0` is. -/
theorem walkRowsAux_mem (P : RasterParams) :
    ∀ (fuel : ℕ) (j i0 : ℤ) (x y phi lamda : ℚ) (c : Cell),
      c ∈ (walkRowsAux P fuel j i0 x y phi lamda).1 →
        j ≤ c.j ∧ (c.j = j → i0 ≤ c.i) ∧ (0 ≤ i0 → 0 ≤ c.i) := by
  intro fuel
  induction fuel with
  | zero =>
    intro j i0 x y phi lamda c hc
    simp [walkRowsAux] at hc
  | succ n ih =>
    intro j i0 x y phi lamda c hc
    rw [walkRowsAux] at hc
    rcases hrow : (walkRowAux P (P.n_images_x - i0).toNat i0 j x y phi lamda).2 with _ | e
    · simp only [hrow] at hc
      rcases List.mem_append.mp hc with hmem | hmem
      · obtain ⟨hj, hi⟩ := walkRowAux_mem P _ i0 j x y phi lamda c hmem
        exact ⟨le_of_eq hj.symm, fun _ => hi, fun h0 => by omega⟩
      · obtain ⟨hj, _, _⟩ := ih (j + 1) 0 _ _ _ _ c hmem
        have hci : (0:ℤ) ≤ c.i := by
          obtain ⟨_, _, h0⟩ := ih (j + 1) 0 _ _ _ _ c hmem
          exact h0 le_rfl
        exact ⟨by omega, fun hj0 => by omega, fun _ => hci⟩
    · simp only [hrow] at hc
      obtain ⟨hj, hi⟩ := walkRowAux_mem P _ i0 j x y phi lamda c hc
      exact ⟨le_of_eq hj.symm, fun _ => hi, fun h0 => by omega⟩

/-- `Nat.digitChar` only produces digit or letter glyphs, never `'_'`. -/
theorem digitChar_ne_underscore (n : ℕ) : Nat.digitChar n ≠ '_' := by
  rcases Nat.lt_or_ge n 16 with h | h
  · interval_cases n <;> decide
  · unfold Nat.digitChar
    repeat rw [if_neg (by omega)]
    decide

/-- Decimal renderings of naturals never contain `'_'`. -/
theorem natDigitsAux_no_underscore :
    ∀ (fuel n : ℕ), '_' ∉ natDigitsAux fuel n := by
  intro fuel
  induction fuel with
  | zero => intro n h; simp [natDigitsAux] at h
  | succ k ih =>
    intro n h
    rw [natDigitsAux] at h
    by_cases h10 : n < 10
    · rw [if_pos h10] at h
      rcases List.mem_singleton.mp h with h
      exact digitChar_ne_underscore n h.symm
    · rw [if_neg h10] at h
      rcases List.mem_append.mp h with h | h
      · exact ih _ h
      · rcases List.mem_singleton.mp h with h
        exact digitChar_ne_underscore _ h.symm

/-- `natChars` never contains `'_'`. -/
theorem natChars_no_underscore (n : ℕ) : '_' ∉ natChars n :=
  natDigitsAux_no_underscore _ n

/-- `intChars` never contains `'_'`. -/
theorem intChars_no_underscore (z : ℤ) : '_' ∉ intChars z := by
  unfold intChars
  split
  · intro h
    rcases List.mem_cons.mp h with h | h
    · exact absurd h.symm (by decide)
    · exact natChars_no_underscore _ h
  · exact natChars_no_underscore _

/-- `stripZeros` only keeps characters of its input. -/
theorem stripZeros_subset (l : List Char) (c : Char) (h : c ∈ stripZeros l) : c ∈ l := by
  unfold stripZeros at h
  rw [List.mem_reverse] at h
  have := (List.dropWhile_sublist (l := l.reverse) (p := fun c => c = '0')).mem h
  exact List.mem_reverse.mp this

/-- `fracChars7` never contains `'_'`. -/
theorem fracChars7_no_underscore (m : ℕ) : '_' ∉ fracChars7 m := by
  intro h
  simp only [fracChars7] at h
  split at h
  · rcases List.mem_singleton.mp h with h
    exact absurd h (by decide)
  · have := stripZeros_subset _ _ h
    rcases List.mem_append.mp this with h2 | h2
    · exact absurd (List.eq_of_mem_replicate h2) (by decide)
    · exact natChars_no_underscore _ h2

/-- `strScaled7` never contains `'_'`. -/
theorem strScaled7_no_underscore (k : ℤ) : '_' ∉ strScaled7 k := by
  unfold strScaled7
  intro h
  rcases List.mem_append.mp h with h | h
  · rcases List.mem_append.mp h with h | h
    · split at h
      · rcases List.mem_singleton.mp h with h
        exact absurd h (by decide)
      · simp at h
    · exact natChars_no_underscore _ h
  · rcases List.mem_cons.mp h with h | h
    · exact absurd h (by decide)
    · exact fracChars7_no_underscore _ h

/-- `strRound7` never contains `'_'`. -/
theorem strRound7_no_underscore (q : ℚ) : '_' ∉ strRound7 q :=
  strScaled7_no_underscore _

/-- `splitOnChar` never returns the empty list of fields. -/
theorem splitOnChar_ne_nil (c : Char) : ∀ l : List Char, splitOnChar c l ≠ [] := by
  intro l
  induction l with
  | nil => simp [splitOnChar]
  | cons x xs ih =>
    rw [splitOnChar]
    rcases hs : splitOnChar c xs with _ | ⟨f, r⟩
    · exact absurd hs ih
    · show (if x = c then [] :: f :: r else (x :: f) :: r) ≠ []
      split <;> simp

/-- Splitting a string that does not contain the separator yields one field. -/
theorem splitOnChar_not_mem (c : Char) :
    ∀ l : List Char, c ∉ l → splitOnChar c l = [l] := by
  intro l
  induction l with
  | nil => intro _; rfl
  | cons x xs ih =>
    intro h
    have hx : ¬x = c := fun hxc => h (by simp [hxc])
    have hxs : c ∉ xs := fun hm => h (List.mem_cons_of_mem _ hm)
    rw [splitOnChar, ih hxs]
    show (if x = c then [[], xs] else [x :: xs]) = [x :: xs]
    rw [if_neg hx]

/-- Splitting `a ++ c :: b` when `a` is separator-free peels off the field
`a`. -/
theorem splitOnChar_append (c : Char) :
    ∀ a b : List Char, c ∉ a →
      splitOnChar c (a ++ c :: b) = a :: splitOnChar c b := by
  intro a
  induction a with
  | nil =>
    intro b _
    rw [List.nil_append, splitOnChar]
    rcases hs : splitOnChar c b with _ | ⟨f, r⟩
    · exact absurd hs (splitOnChar_ne_nil c b)
    · show (if c = c then [] :: f :: r else (c :: f) :: r) = [] :: f :: r
      rw [if_pos rfl]
  | cons x xs ih =>
    intro b h
    have hx : ¬x = c := fun hxc => h (by simp [hxc])
    have hxs : c ∉ xs := fun hm => h (List.mem_cons_of_mem _ hm)
    rw [List.cons_append, splitOnChar, ih b hxs]
    show (if x = c then [] :: xs :: splitOnChar c b else (x :: xs) :: splitOnChar c b) =
      (x :: xs) :: splitOnChar c b
    rw [if_neg hx]

/-- Dropping a suffix of known length from an append. -/
theorem pyDropRight_append (a s : List Char) (n : ℕ) (h : s.length = n) :
    pyDropRight (a ++ s) n = a := by
  unfold pyDropRight
  rw [List.length_append, h, Nat.add_sub_cancel, List.take_left]

/-- C6 (amended): every cell image is persisted under a name of exactly five
underscore-separated fields `{col}_{row}_{lat}_{lon}_{zoom}` followed by
`.jpg`, where the latitude and longitude fields are `str(round(_, 7))` — the
value rounded to 7 decimal places but rendered with trailing zeros dropped,
not zero-padded to seven decimal places. -/
theorem c6_naming_contract (i j : ℤ) (phi lamda : ℚ) (z : ℤ) :
    splitOnChar '_' (pyDropRight (out_name i j phi lamda z) 4) =
      [intChars i, intChars j, strRound7 phi, strRound7 lamda, intChars z] := by
  have hassoc : out_name i j phi lamda z =
      (intChars i ++ '_' :: (intChars j ++ '_' :: (strRound7 phi ++ '_' ::
        (strRound7 lamda ++ '_' :: intChars z)))) ++ ['.', 'j', 'p', 'g'] := by
    simp [out_name, List.append_assoc]
  rw [hassoc, pyDropRight_append _ _ 4 (by decide)]
  rw [splitOnChar_append '_' (intChars i) _ (intChars_no_underscore i)]
  rw [splitOnChar_append '_' (intChars j) _ (intChars_no_underscore j)]
  rw [splitOnChar_append '_' (strRound7 phi) _ (strRound7_no_underscore phi)]
  rw [splitOnChar_append '_' (strRound7 lamda) _ (strRound7_no_underscore lamda)]
  rw [splitOnChar_not_mem '_' (intChars z) (intChars_no_underscore z)]

/-- C6 (counterexample): at cell (0, 0), latitude 35.5, longitude −89.5,
zoom 19, the code writes `0_0_35.5_-89.5_19.jpg` — the coordinate fields are
not rendered with exactly seven decimal places as the claimed contract
`{col}_{row}_{lat:.7f}_{lon:.7f}_{zoom}.jpg` (= `0_0_35.5000000_-89.5000000_19.jpg`)
requires. -/
theorem c6_seven_decimals_counterexample :
    out_name 0 0 (71/2) (-179/2) 19 = "0_0_35.5_-89.5_19.jpg".toList ∧
      out_name 0 0 (71/2) (-179/2) 19 ≠ spec_out_name 0 0 (71/2) (-179/2) 19 := by
  have hq1 : (71/2 : ℚ) * 10^7 = ((355000000 : ℤ) : ℚ) := by norm_num
  have hq2 : (-179/2 : ℚ) * 10^7 = ((-895000000 : ℤ) : ℚ) := by norm_num
  have hk1 : pyRoundInt ((71/2 : ℚ) * 10^7) = 355000000 := by
    rw [pyRoundInt, hq1, Int.floor_intCast]
    rw [if_neg (by norm_num)]
    exact round_intCast _
  have hk2 : pyRoundInt ((-179/2 : ℚ) * 10^7) = -895000000 := by
    rw [pyRoundInt, hq2, Int.floor_intCast]
    rw [if_neg (by norm_num)]
    exact round_intCast _
  constructor
  · simp only [out_name, strRound7, hk1, hk2]
    decide
  · simp only [out_name, spec_out_name, strRound7, hk1, hk2]
    decide

/-- C9 (counterexample): at the degenerate input altitude 0 (fov 90°, aspect
ratio 4/3), `get_map_dim_m` does not fail: no `InvalidGeometryError` exists
anywhere in the code, the function performs no validation, and it returns the
degenerate footprint `(0, 0, 0)` instead. -/
theorem c9_no_validation_counterexample : get_map_dim_m 90 0 (4/3) = (0, 0, 0) := by
  simp [get_map_dim_m]

/-- C9 (amended): `get_map_dim_m` never raises; it always returns
`(d·sin(atan ar), d·cos(atan ar), agl)` with `d = 2·agl·tan(radians(fov/2))`.
For non-degenerate inputs (`0 < fov < 180°`, `agl > 0`, `ar > 0`) the returned
width and height are positive, their ratio is the aspect ratio, and they
satisfy Pythagoras against the diagonal `d`; degenerate inputs (fov ≥ 180° or
agl ≤ 0) are not rejected — they just produce nonsensical values. -/
theorem c9_footprint_formula (fov agl ar : ℝ) (h1 : 0 < fov) (h2 : fov < 180)
    (h3 : 0 < agl) (h4 : 0 < ar) :
    (get_map_dim_m fov agl ar).1 =
        2 * agl * Real.tan (rad (fov / 2)) * Real.sin (Real.arctan ar) ∧
      (get_map_dim_m fov agl ar).2.1 =
        2 * agl * Real.tan (rad (fov / 2)) * Real.cos (Real.arctan ar) ∧
      (get_map_dim_m fov agl ar).2.2 = agl ∧
      0 < (get_map_dim_m fov agl ar).1 ∧
      0 < (get_map_dim_m fov agl ar).2.1 ∧
      (get_map_dim_m fov agl ar).1 / (get_map_dim_m fov agl ar).2.1 = ar ∧
      (get_map_dim_m fov agl ar).1 ^ 2 + (get_map_dim_m fov agl ar).2.1 ^ 2 =
        (2 * agl * Real.tan (rad (fov / 2))) ^ 2 := by
  have hrad0 : 0 < rad (fov / 2) := by
    unfold rad
    positivity
  have hrad1 : rad (fov / 2) < Real.pi / 2 := by
    unfold rad
    rw [div_lt_div_iff (by norm_num) (by norm_num : (0:ℝ) < 2)]
    nlinarith [Real.pi_pos]
  have htan : 0 < Real.tan (rad (fov / 2)) :=
    Real.tan_pos_of_pos_of_lt_pi_div_two hrad0 hrad1
  have hd : 0 < 2 * agl * Real.tan (rad (fov / 2)) := by positivity
  have hsq : (0:ℝ) < Real.sqrt (1 + ar ^ 2) := Real.sqrt_pos.mpr (by positivity)
  have hsin : 0 < Real.sin (Real.arctan ar) := by
    rw [Real.sin_arctan]
    positivity
  have hcos : 0 < Real.cos (Real.arctan ar) := Real.cos_arctan_pos ar
  refine ⟨rfl, rfl, rfl, ?_, ?_, ?_, ?_⟩
  · exact mul_pos hd hsin
  · exact mul_pos hd hcos
  · show 2 * agl * Real.tan (rad (fov / 2)) * Real.sin (Real.arctan ar) /
        (2 * agl * Real.tan (rad (fov / 2)) * Real.cos (Real.arctan ar)) = ar
    rw [mul_div_mul_left _ _ (ne_of_gt hd), ← Real.tan_eq_sin_div_cos,
      Real.tan_arctan]
  · show (2 * agl * Real.tan (rad (fov / 2)) * Real.sin (Real.arctan ar)) ^ 2 +
        (2 * agl * Real.tan (rad (fov / 2)) * Real.cos (Real.arctan ar)) ^ 2 = _
    have hpyth := Real.sin_sq_add_cos_sq (Real.arctan ar)
    nlinarith [hpyth]

/-- Witness for C9 (amended) at fov 90°, altitude 100 m, aspect ratio 1. -/
theorem c9_footprint_formula_witness :
    (0:ℝ) < 90 ∧ (90:ℝ) < 180 ∧ (0:ℝ) < 100 ∧ (0:ℝ) < 1 ∧
      ((get_map_dim_m 90 100 1).1 =
          2 * 100 * Real.tan (rad (90 / 2)) * Real.sin (Real.arctan 1) ∧
        (get_map_dim_m 90 100 1).2.1 =
          2 * 100 * Real.tan (rad (90 / 2)) * Real.cos (Real.arctan 1) ∧
        (get_map_dim_m 90 100 1).2.2 = 100 ∧
        0 < (get_map_dim_m 90 100 1).1 ∧
        0 < (get_map_dim_m 90 100 1).2.1 ∧
        (get_map_dim_m 90 100 1).1 / (get_map_dim_m 90 100 1).2.1 = 1 ∧
        (get_map_dim_m 90 100 1).1 ^ 2 + (get_map_dim_m 90 100 1).2.1 ^ 2 =
          (2 * 100 * Real.tan (rad (90 / 2))) ^ 2) :=
  ⟨by norm_num, by norm_num, by norm_num, by norm_num,
    c9_footprint_formula 90 100 1 (by norm_num) (by norm_num) (by norm_num)
      (by norm_num)⟩

/-- Truncation of an exact integer value. -/
theorem pyIntR_intCast (n : ℤ) : pyIntR (n : ℝ) = n := by
  unfold pyIntR
  split
  · exact Int.floor_intCast n
  · exact Int.ceil_intCast n

/-- Truncation of zero. -/
theorem pyIntR_zero : pyIntR 0 = 0 := by
  unfold pyIntR
  rw [if_pos le_rfl]
  exact Int.floor_zero

/-- `generate_tile_info` at a point whose tile coordinates are exact integers:
indices `(a, b)` and zero pixel offsets. -/
theorem generate_tile_info_int (lat lon : ℝ) (z a b : ℤ)
    (hx : (lon + 180) / 360 * (2:ℝ) ^ z = (a : ℝ))
    (hy : (1 - Real.log (Real.tan (rad lat) + 1 / Real.cos (rad lat)) / Real.pi) / 2 *
      (2:ℝ) ^ z = (b : ℝ)) :
    generate_tile_info lat lon z = (a, b, 0, 0) := by
  simp only [generate_tile_info]
  rw [hx, hy, pyIntR_intCast, pyIntR_intCast, sub_self, sub_self, pyIntR_zero]

/-- The equator maps to the vertical middle of tile space: tile row `2^z / 2`
index term of `generate_tile_info` at latitude 0. -/
theorem tile_y_equator (z : ℤ) :
    (1 - Real.log (Real.tan (rad 0) + 1 / Real.cos (rad 0)) / Real.pi) / 2 *
      (2:ℝ) ^ z = (2:ℝ) ^ z / 2 := by
  rw [show rad 0 = 0 by simp [rad]]
  rw [Real.tan_zero, Real.cos_zero]
  norm_num [Real.log_one]
  ring

/-- Tile info of the equator point at longitude −90°, zoom 2. -/
theorem gti_eq_m90 : generate_tile_info 0 (-90) 2 = (1, 2, 0, 0) := by
  refine generate_tile_info_int 0 (-90) 2 1 2 (by norm_num) ?_
  rw [tile_y_equator]
  norm_num

/-- Tile info of the equator point at longitude 0°, zoom 2. -/
theorem gti_eq_0 : generate_tile_info 0 0 2 = (2, 2, 0, 0) := by
  refine generate_tile_info_int 0 0 2 2 2 (by norm_num) ?_
  rw [tile_y_equator]
  norm_num

/-- Length of `intRange`. -/
theorem intRange_length (a b : ℤ) : (intRange a b).length = (b + 1 - a).toNat := by
  unfold intRange
  rw [List.length_map, List.length_range]

/-- Empty `intRange` on an inverted range. -/
theorem intRange_nil (a b : ℤ) (h : b + 1 - a ≤ 0) : intRange a b = [] := by
  unfold intRange
  rw [Int.toNat_of_nonpos h]
  rfl

/-- Length of a `flatMap` whose inner lists have constant length. -/
theorem length_flatMap_const {α β : Type} (l : List α) (f : α → List β) (k : ℕ)
    (h : ∀ a, (f a).length = k) : (l.flatMap f).length = l.length * k := by
  induction l with
  | nil => simp
  | cons x xs ih =>
    simp only [List.flatMap_cons, List.length_append, List.length_cons, ih, h]
    ring

/-- C7: every stitch invocation uses the effective zoom
`min(zoom + resolution, 22)` for all tile-index computation and fetching, and
(when the tile counts are nonnegative, so that the canvas allocation succeeds)
allocates a canvas of exactly `(tilesX * 256, tilesY * 256)` pixels where
`tilesX`/`tilesY` are the corner tile-index spans plus one; the number of tile
fetches submitted matches the full rectangle. -/
theorem c7_effective_zoom_and_canvas (tl br : ℝ × ℝ) (zoom resolution : ℤ)
    (mt : MapType)
    (hx : 0 ≤ nTilesX tl br (effectiveZoom zoom resolution))
    (hy : 0 ≤ nTilesY tl br (effectiveZoom zoom resolution)) :
    ∃ s : StitchResult,
      collect_tiles tl br zoom resolution mt = Except.ok s ∧
        s.effZoom = min (zoom + resolution) 22 ∧
        s.canvasW = nTilesX tl br (effectiveZoom zoom resolution) * 256 ∧
        s.canvasH = nTilesY tl br (effectiveZoom zoom resolution) * 256 ∧
        s.fetched.length =
          (nTilesX tl br (effectiveZoom zoom resolution)).toNat *
            (nTilesY tl br (effectiveZoom zoom resolution)).toNat := by
  unfold nTilesX at hx
  unfold nTilesY at hy
  have hcond : ¬(((generate_tile_info br.1 br.2 (effectiveZoom zoom resolution)).1 -
        (generate_tile_info tl.1 tl.2 (effectiveZoom zoom resolution)).1 + 1) * 256 < 0 ∨
      ((generate_tile_info br.1 br.2 (effectiveZoom zoom resolution)).2.1 -
        (generate_tile_info tl.1 tl.2 (effectiveZoom zoom resolution)).2.1 + 1) * 256 < 0) := by
    push_neg
    omega
  have hok : collect_tiles tl br zoom resolution mt =
      Except.ok ⟨effectiveZoom zoom resolution,
        ((generate_tile_info br.1 br.2 (effectiveZoom zoom resolution)).1 -
          (generate_tile_info tl.1 tl.2 (effectiveZoom zoom resolution)).1 + 1) * 256,
        ((generate_tile_info br.1 br.2 (effectiveZoom zoom resolution)).2.1 -
          (generate_tile_info tl.1 tl.2 (effectiveZoom zoom resolution)).2.1 + 1) * 256,
        |(generate_tile_info br.1 br.2 (effectiveZoom zoom resolution)).2.2.1 +
          256 * ((generate_tile_info br.1 br.2 (effectiveZoom zoom resolution)).1 -
            (generate_tile_info tl.1 tl.2 (effectiveZoom zoom resolution)).1 + 1 - 1) -
          (generate_tile_info tl.1 tl.2 (effectiveZoom zoom resolution)).2.2.1|,
        |(generate_tile_info br.1 br.2 (effectiveZoom zoom resolution)).2.2.2 +
          256 * ((generate_tile_info br.1 br.2 (effectiveZoom zoom resolution)).2.1 -
            (generate_tile_info tl.1 tl.2 (effectiveZoom zoom resolution)).2.1 + 1 - 1) -
          (generate_tile_info tl.1 tl.2 (effectiveZoom zoom resolution)).2.2.2|,
        (intRange (generate_tile_info tl.1 tl.2 (effectiveZoom zoom resolution)).2.1
          (generate_tile_info br.1 br.2 (effectiveZoom zoom resolution)).2.1).flatMap
          fun ty => (intRange (generate_tile_info tl.1 tl.2 (effectiveZoom zoom resolution)).1
            (generate_tile_info br.1 br.2 (effectiveZoom zoom resolution)).1).map
            fun tx => (tx, ty)⟩ := by
    simp only [collect_tiles]
    rw [if_neg hcond]
  refine ⟨_, hok, rfl, rfl, rfl, ?_⟩
  show ((intRange (generate_tile_info tl.1 tl.2 (effectiveZoom zoom resolution)).2.1
      (generate_tile_info br.1 br.2 (effectiveZoom zoom resolution)).2.1).flatMap
      (fun ty => (intRange (generate_tile_info tl.1 tl.2 (effectiveZoom zoom resolution)).1
        (generate_tile_info br.1 br.2 (effectiveZoom zoom resolution)).1).map
        (fun tx => (tx, ty)))).length =
    (nTilesX tl br (effectiveZoom zoom resolution)).toNat *
      (nTilesY tl br (effectiveZoom zoom resolution)).toNat
  rw [length_flatMap_const _ _
    (intRange (generate_tile_info tl.1 tl.2 (effectiveZoom zoom resolution)).1
      (generate_tile_info br.1 br.2 (effectiveZoom zoom resolution)).1).length
    (fun a => List.length_map _ _)]
  rw [intRange_length, intRange_length]
  unfold nTilesX nTilesY
  rw [Nat.mul_comm]
  congr 1 <;> omega

/-- Witness for C7: the equator box from longitude −90° to 0° at zoom 2 spans
tiles 1–2 horizontally and stays in tile row 2. -/
theorem c7_effective_zoom_and_canvas_witness :
    0 ≤ nTilesX (0, -90) (0, 0) (effectiveZoom 2 0) ∧
      0 ≤ nTilesY (0, -90) (0, 0) (effectiveZoom 2 0) ∧
      (∃ s : StitchResult,
        collect_tiles (0, -90) (0, 0) 2 0 MapType.satellite = Except.ok s ∧
          s.effZoom = min (2 + 0) 22 ∧
          s.canvasW = nTilesX (0, -90) (0, 0) (effectiveZoom 2 0) * 256 ∧
          s.canvasH = nTilesY (0, -90) (0, 0) (effectiveZoom 2 0) * 256 ∧
          s.fetched.length =
            (nTilesX (0, -90) (0, 0) (effectiveZoom 2 0)).toNat *
              (nTilesY (0, -90) (0, 0) (effectiveZoom 2 0)).toNat) :=
  have hz : effectiveZoom 2 0 = 2 := by decide
  have hx : nTilesX (0, -90) (0, 0) (effectiveZoom 2 0) = 2 := by
    unfold nTilesX
    rw [hz]
    norm_num [gti_eq_m90, gti_eq_0]
  have hy : nTilesY (0, -90) (0, 0) (effectiveZoom 2 0) = 1 := by
    unfold nTilesY
    rw [hz]
    norm_num [gti_eq_m90, gti_eq_0]
  ⟨by rw [hx]; norm_num, by rw [hy]; norm_num,
    c7_effective_zoom_and_canvas (0, -90) (0, 0) 2 0 MapType.satellite
      (by rw [hx]; norm_num) (by rw [hy]; norm_num)⟩

/-- C8 (counterexample): the inverted (degenerate) box from longitude 0° back
to −90° on the equator implies a zero tile count at zoom 2, yet
`collect_tiles` does not fail — there is no `InvalidGeometryError` anywhere in
the code — it returns an empty-canvas result normally, fetching nothing. -/
theorem c8_degenerate_counterexample :
    collect_tiles (0, 0) (0, -90) 2 0 MapType.satellite =
      Except.ok ⟨2, 0, 256, 256, 0, []⟩ := by
  simp only [collect_tiles]
  rw [show effectiveZoom 2 0 = 2 from by decide]
  simp only [gti_eq_m90, gti_eq_0]
  rw [if_neg (by norm_num), Except.ok.injEq]
  decide

/-- C8 (amended): for a degenerate box whose tile count is zero or negative in
some axis, `collect_tiles` issues no tile fetch; it raises no
`InvalidGeometryError` (no such error exists in the code) — if the tile count
is negative enough to give a negative canvas size the only failure is PIL's
`ValueError` from `Image.new`, raised before any fetch, and otherwise the call
returns normally with an empty fetch list. -/
theorem c8_degenerate_no_fetch (tl br : ℝ × ℝ) (zoom resolution : ℤ) (mt : MapType)
    (h : nTilesX tl br (effectiveZoom zoom resolution) ≤ 0 ∨
      nTilesY tl br (effectiveZoom zoom resolution) ≤ 0) :
    (∀ s : StitchResult,
        collect_tiles tl br zoom resolution mt = Except.ok s → s.fetched = []) ∧
      (∀ e : PyErr,
        collect_tiles tl br zoom resolution mt = Except.error e →
          e = PyErr.pilValueError) := by
  unfold nTilesX at h
  unfold nTilesY at h
  constructor
  · intro s hs
    simp only [collect_tiles] at hs
    split at hs
    · exact absurd hs (by simp)
    · rw [Except.ok.injEq] at hs
      rw [← hs]
      show ((intRange _ _).flatMap fun ty => (intRange _ _).map fun tx => (tx, ty)) = []
      apply List.eq_nil_of_length_eq_zero
      rw [length_flatMap_const _ _
        (intRange (generate_tile_info tl.1 tl.2 (effectiveZoom zoom resolution)).1
          (generate_tile_info br.1 br.2 (effectiveZoom zoom resolution)).1).length
        (fun a => List.length_map _ _)]
      rw [intRange_length, intRange_length]
      rcases h with h | h
      · have h0 : ((generate_tile_info br.1 br.2 (effectiveZoom zoom resolution)).1 + 1 -
            (generate_tile_info tl.1 tl.2 (effectiveZoom zoom resolution)).1).toNat = 0 := by
          omega
        rw [h0, Nat.mul_zero]
      · have h0 : ((generate_tile_info br.1 br.2 (effectiveZoom zoom resolution)).2.1 + 1 -
            (generate_tile_info tl.1 tl.2 (effectiveZoom zoom resolution)).2.1).toNat = 0 := by
          omega
        rw [h0, Nat.zero_mul]
  · intro e he
    simp only [collect_tiles] at he
    split at he
    · simp only [Except.error.injEq] at he
      exact he.symm
    · exact absurd he (by simp)

/-- Witness for C8 (amended) at the inverted equator box. -/
theorem c8_degenerate_no_fetch_witness :
    (nTilesX (0, 0) (0, -90) (effectiveZoom 2 0) ≤ 0 ∨
        nTilesY (0, 0) (0, -90) (effectiveZoom 2 0) ≤ 0) ∧
      ((∀ s : StitchResult,
          collect_tiles (0, 0) (0, -90) 2 0 MapType.roadmap = Except.ok s →
            s.fetched = []) ∧
        (∀ e : PyErr,
          collect_tiles (0, 0) (0, -90) 2 0 MapType.roadmap = Except.error e →
            e = PyErr.pilValueError)) :=
  have hx : nTilesX (0, 0) (0, -90) (effectiveZoom 2 0) = 0 := by
    unfold nTilesX
    rw [show effectiveZoom 2 0 = 2 from by decide]
    norm_num [gti_eq_m90, gti_eq_0]
  ⟨Or.inl (by rw [hx]), c8_degenerate_no_fetch (0, 0) (0, -90) 2 0 MapType.roadmap
    (Or.inl (by rw [hx]))⟩

/-- C4 (amended): whenever the larger of the two half-pixel spans lies in
`(640/2^24, 320]` — which holds for every bounding box that stays inside the
standard Mercator world square and is large enough to need zoom ≤ 22 —
`get_zoom_from_bounds`'s zoom selection (`zoomSelect`) returns the largest
integer zoom whose raw pixel size fits in the 640-px canvas: the raw width and
height at the returned zoom are ≤ 640 (and so are the returned truncated
sizes), and zoom + 1 would exceed 640. -/
theorem c4_zoom_tightest_fit (half_pw_x half_pw_y : ℝ)
    (h1 : 0 < half_pw_x) (h2 : 0 < half_pw_y)
    (h3 : max half_pw_x half_pw_y ≤ 320)
    (h4 : 640 < max half_pw_x half_pw_y * 2 ^ (24 : ℕ)) :
    ∃ z iw ih : ℤ, zoomSelect half_pw_x half_pw_y 22 = Except.ok (z, iw, ih) ∧
      0 ≤ z ∧ half_pw_x * 2 ^ (z + 1) ≤ 640 ∧ half_pw_y * 2 ^ (z + 1) ≤ 640 ∧
      640 < max half_pw_x half_pw_y * 2 ^ (z + 2) ∧ iw ≤ 640 ∧ ih ≤ 640 := by
  have hb : (1:ℝ) < 2 := one_lt_two
  have hm0 : 0 < max half_pw_x half_pw_y := lt_max_of_lt_left h1
  have hmd : 0 < max half_pw_x half_pw_y / 640 := by positivity
  have hL1 : Real.logb 2 (max half_pw_x half_pw_y / 640) ≤ -1 := by
    rw [Real.logb_le_iff_le_rpow hb hmd,
      show ((-1:ℝ)) = ((-1 : ℤ) : ℝ) by norm_num, Real.rpow_intCast,
      div_le_iff₀ (by norm_num : (0:ℝ) < 640)]
    refine le_trans h3 ?_
    norm_num
  have hL2 : (-24:ℝ) < Real.logb 2 (max half_pw_x half_pw_y / 640) := by
    rw [Real.lt_logb_iff_rpow_lt hb hmd,
      show ((-24:ℝ)) = ((-24 : ℤ) : ℝ) by norm_num, Real.rpow_intCast,
      lt_div_iff₀ (by norm_num : (0:ℝ) < 640)]
    have h4' : (640:ℝ) / 2 ^ (24:ℕ) < max half_pw_x half_pw_y := by
      rw [div_lt_iff₀ (by positivity)]
      linarith [h4]
    calc (2:ℝ) ^ ((-24:ℤ)) * 640 = 640 / 2 ^ (24:ℕ) := by norm_num
    _ < max half_pw_x half_pw_y := h4'
  simp only [zoomSelect, tile_size]
  set v := -Real.logb 2 (max half_pw_x half_pw_y / 640) - 1 with hvdef
  have hv0 : (0:ℝ) ≤ v := by rw [hvdef]; linarith
  have hv23 : v < 23 := by rw [hvdef]; linarith
  have hz : pyIntR v = ⌊v⌋ := by unfold pyIntR; rw [if_pos hv0]
  have hz0 : 0 ≤ ⌊v⌋ := Int.le_floor.mpr (by exact_mod_cast hv0)
  have hz22 : ⌊v⌋ ≤ 22 := by
    have : ⌊v⌋ < 23 := Int.floor_lt.mpr (by exact_mod_cast hv23)
    omega
  have hkey : (2:ℝ) ^ (v + 1) = 640 / max half_pw_x half_pw_y := by
    have hvl : v + 1 = Real.logb 2 (640 / max half_pw_x half_pw_y) := by
      rw [show (640 : ℝ) / max half_pw_x half_pw_y =
        (max half_pw_x half_pw_y / 640)⁻¹ from (inv_div _ _).symm, Real.logb_inv]
      rw [hvdef]
      ring
    rw [hvl, Real.rpow_logb (by norm_num) (by norm_num) (by positivity)]
  have hcast : ∀ k : ℤ, (2:ℝ) ^ k = (2:ℝ) ^ ((k:ℤ):ℝ) := fun k =>
    (Real.rpow_intCast 2 k).symm
  have hle : (2:ℝ) ^ (⌊v⌋ + 1) ≤ 640 / max half_pw_x half_pw_y := by
    rw [hcast (⌊v⌋ + 1), ← hkey]
    rw [Real.rpow_le_rpow_left_iff hb]
    push_cast
    have := Int.floor_le v
    linarith
  have hlt : 640 / max half_pw_x half_pw_y < (2:ℝ) ^ (⌊v⌋ + 2) := by
    rw [hcast (⌊v⌋ + 2), ← hkey]
    rw [Real.rpow_lt_rpow_left_iff hb]
    push_cast
    have := Int.lt_floor_add_one v
    linarith
  have hxle : half_pw_x * (2:ℝ) ^ (⌊v⌋ + 1) ≤ 640 := by
    have hzp : (0:ℝ) < (2:ℝ) ^ (⌊v⌋ + 1) := by positivity
    have h5 : half_pw_x * (2:ℝ) ^ (⌊v⌋ + 1) ≤
        max half_pw_x half_pw_y * (2:ℝ) ^ (⌊v⌋ + 1) :=
      mul_le_mul_of_nonneg_right (le_max_left _ _) hzp.le
    have h6 : max half_pw_x half_pw_y * (2:ℝ) ^ (⌊v⌋ + 1) ≤
        max half_pw_x half_pw_y * (640 / max half_pw_x half_pw_y) :=
      mul_le_mul_of_nonneg_left hle hm0.le
    rw [mul_div_cancel₀ _ (ne_of_gt hm0)] at h6
    linarith
  have hyle : half_pw_y * (2:ℝ) ^ (⌊v⌋ + 1) ≤ 640 := by
    have hzp : (0:ℝ) < (2:ℝ) ^ (⌊v⌋ + 1) := by positivity
    have h5 : half_pw_y * (2:ℝ) ^ (⌊v⌋ + 1) ≤
        max half_pw_x half_pw_y * (2:ℝ) ^ (⌊v⌋ + 1) :=
      mul_le_mul_of_nonneg_right (le_max_right _ _) hzp.le
    have h6 : max half_pw_x half_pw_y * (2:ℝ) ^ (⌊v⌋ + 1) ≤
        max half_pw_x half_pw_y * (640 / max half_pw_x half_pw_y) :=
      mul_le_mul_of_nonneg_left hle hm0.le
    rw [mul_div_cancel₀ _ (ne_of_gt hm0)] at h6
    linarith
  have hmgt : 640 < max half_pw_x half_pw_y * (2:ℝ) ^ (⌊v⌋ + 2) := by
    have h7 : max half_pw_x half_pw_y * (640 / max half_pw_x half_pw_y) <
        max half_pw_x half_pw_y * (2:ℝ) ^ (⌊v⌋ + 2) :=
      mul_lt_mul_of_pos_left hlt hm0
    rw [mul_div_cancel₀ _ (ne_of_gt hm0)] at h7
    linarith
  refine ⟨⌊v⌋, pyIntR (half_pw_x * 2 ^ (⌊v⌋ + 1)),
    pyIntR (half_pw_y * 2 ^ (⌊v⌋ + 1)), ?_, hz0, hxle, hyle, hmgt, ?_, ?_⟩
  · rw [hz, if_neg (by omega)]
  · have hnn : (0:ℝ) ≤ half_pw_x * 2 ^ (⌊v⌋ + 1) := by positivity
    unfold pyIntR
    rw [if_pos hnn]
    have : (⌊half_pw_x * 2 ^ (⌊v⌋ + 1)⌋ : ℝ) ≤ 640 :=
      le_trans (Int.floor_le _) hxle
    exact_mod_cast this
  · have hnn : (0:ℝ) ≤ half_pw_y * 2 ^ (⌊v⌋ + 1) := by positivity
    unfold pyIntR
    rw [if_pos hnn]
    have : (⌊half_pw_y * 2 ^ (⌊v⌋ + 1)⌋ : ℝ) ≤ 640 :=
      le_trans (Int.floor_le _) hyle
    exact_mod_cast this

/-- Witness for C4 (amended) at half-pixel spans 320 and 10. -/
theorem c4_zoom_tightest_fit_witness :
    (0:ℝ) < 320 ∧ (0:ℝ) < 10 ∧ max (320:ℝ) 10 ≤ 320 ∧
      (640:ℝ) < max (320:ℝ) 10 * 2 ^ (24 : ℕ) ∧
      (∃ z iw ih : ℤ, zoomSelect 320 10 22 = Except.ok (z, iw, ih) ∧
        0 ≤ z ∧ (320:ℝ) * 2 ^ (z + 1) ≤ 640 ∧ (10:ℝ) * 2 ^ (z + 1) ≤ 640 ∧
        640 < max (320:ℝ) 10 * 2 ^ (z + 2) ∧ iw ≤ 640 ∧ ih ≤ 640) :=
  ⟨by norm_num, by norm_num, by rw [max_eq_left (by norm_num)],
    by rw [max_eq_left (by norm_num)]; norm_num,
    c4_zoom_tightest_fit 320 10 (by norm_num) (by norm_num)
      (by rw [max_eq_left (by norm_num)])
      (by rw [max_eq_left (by norm_num)]; norm_num)⟩

/-- Mercator world-pixel x-coordinate of the north-west world corner. -/
theorem latlonToPt_pole_north_x : (latlonToPt 90 (-180)).1 = 0 := by
  simp only [latlonToPt, tile_center_p, pixel_per_degree]
  norm_num

/-- Mercator world-pixel y-coordinate of latitude 90°: the clamp at
`1 - 1e-15` sends the pole to `128 - 64·log(2·10^15 − 1)/π`, far outside the
256-px world square. -/
theorem latlonToPt_pole_north_y :
    (latlonToPt 90 (-180)).2 = 128 - 64 * Real.log 1999999999999999 / Real.pi := by
  simp only [latlonToPt, tile_center_p, pixel_per_radian]
  rw [show rad 90 = Real.pi / 2 from by unfold rad; ring, Real.sin_pi_div_two]
  rw [max_eq_left (by norm_num), min_eq_right (by norm_num)]
  rw [show (1 + (1 - 1e-15)) / (1 - (1 - 1e-15)) = (1999999999999999:ℝ) from by norm_num]
  field_simp
  ring

/-- Mercator world-pixel x-coordinate of the south-east world corner. -/
theorem latlonToPt_pole_south_x : (latlonToPt (-90) 180).1 = 256 := by
  simp only [latlonToPt, tile_center_p, pixel_per_degree]
  norm_num

/-- Mercator world-pixel y-coordinate of latitude −90°. -/
theorem latlonToPt_pole_south_y :
    (latlonToPt (-90) 180).2 = 128 + 64 * Real.log 1999999999999999 / Real.pi := by
  simp only [latlonToPt, tile_center_p, pixel_per_radian]
  rw [show rad (-90) = -(Real.pi / 2) from by unfold rad; ring]
  rw [Real.sin_neg, Real.sin_pi_div_two]
  rw [max_eq_right (by norm_num), min_eq_left (by norm_num)]
  rw [show (1 + -(1 - 1e-15)) / (1 - -(1 - 1e-15)) = ((1999999999999999:ℝ))⁻¹ from by
    norm_num]
  rw [Real.log_inv]
  field_simp
  ring

/-- `log(2·10^15 − 1)` lies strictly between 32 and 36. -/
theorem log_two_quadrillion_bounds :
    32 < Real.log 1999999999999999 ∧ Real.log 1999999999999999 < 36 := by
  constructor
  · rw [Real.lt_log_iff_exp_lt (by norm_num)]
    calc Real.exp 32 = Real.exp 1 ^ (32:ℕ) := by
          rw [Real.exp_one_pow]
          norm_num
    _ < 2.7182818286 ^ (32:ℕ) :=
          pow_lt_pow_left Real.exp_one_lt_d9 (le_of_lt (Real.exp_pos 1)) (by norm_num)
    _ < 1999999999999999 := by norm_num
  · rw [Real.log_lt_iff_lt_exp (by norm_num)]
    calc (1999999999999999:ℝ) < 2.7182818283 ^ (36:ℕ) := by norm_num
    _ < Real.exp 1 ^ (36:ℕ) :=
          pow_lt_pow_left Real.exp_one_gt_d9 (by norm_num) (by norm_num)
    _ = Real.exp 36 := by
          rw [Real.exp_one_pow]
          norm_num

/-- C4 (counterexample): for the non-degenerate bounding box from `(90, -180)`
to `(-90, 180)` — whose clamped Mercator projection escapes the 256-px world
square — `get_zoom_from_bounds` returns normally, but the returned pixel
height exceeds the 640-px maximum canvas size: the `int()` truncation toward
zero rounds the (negative) ideal zoom up instead of down, so the selected
zoom is not the largest zoom that fits. -/
theorem c4_max_canvas_counterexample :
    zoomResultViolates (get_zoom_from_bounds (90, -180) (-90, 180)) := by
  obtain ⟨hLlo, hLhi⟩ := log_two_quadrillion_bounds
  have hpi_lo := Real.pi_gt_3141592
  have hpi_hi := Real.pi_lt_315
  have hpi0 : (0:ℝ) < Real.pi := Real.pi_pos
  set L := Real.log 1999999999999999 with hLdef
  set t : ℝ := 64 * L / Real.pi with htdef
  have ht_lo : (650:ℝ) < t := by
    rw [htdef, lt_div_iff₀ hpi0]
    linarith
  have ht_hi : t < 734 := by
    rw [htdef, div_lt_iff₀ hpi0]
    linarith
  have hred : get_zoom_from_bounds (90, -180) (-90, 180) = zoomSelect 128 t 22 := by
    simp only [get_zoom_from_bounds]
    rw [latlonToPt_pole_north_x, latlonToPt_pole_north_y,
      latlonToPt_pole_south_x, latlonToPt_pole_south_y]
    rw [show ((256:ℝ) - 0) / 2 = 128 from by norm_num]
    rw [show ((128 + 64 * Real.log 1999999999999999 / Real.pi) -
      (128 - 64 * Real.log 1999999999999999 / Real.pi)) / 2 =
      64 * Real.log 1999999999999999 / Real.pi from by ring]
  rw [hred]
  have hmax : max (128:ℝ) t = t := max_eq_right (by linarith)
  simp only [zoomSelect, tile_size, hmax]
  have htd1 : (1:ℝ) < t / 640 := by
    rw [lt_div_iff₀ (by norm_num : (0:ℝ) < 640)]
    linarith
  have htd2 : t / 640 < 2 := by
    rw [div_lt_iff₀ (by norm_num : (0:ℝ) < 640)]
    linarith
  have hlogb_pos : 0 < Real.logb 2 (t / 640) := Real.logb_pos one_lt_two htd1
  have hlogb_lt : Real.logb 2 (t / 640) < 1 := by
    rw [Real.logb_lt_iff_lt_rpow one_lt_two (by positivity)]
    rw [Real.rpow_one]
    exact htd2
  have hzv : pyIntR (-Real.logb 2 (t / 640) - 1) = -1 := by
    unfold pyIntR
    rw [if_neg (by push_neg; linarith)]
    rw [Int.ceil_eq_iff]
    constructor
    · push_cast
      linarith
    · push_cast
      linarith
  rw [hzv]
  rw [if_neg (by norm_num)]
  show (640:ℤ) < pyIntR (t * 2 ^ ((-1:ℤ) + 1))
  rw [show ((-1:ℤ) + 1) = 0 from by norm_num, zpow_zero, mul_one]
  unfold pyIntR
  rw [if_pos (by linarith)]
  have h641 : (641:ℤ) ≤ ⌊t⌋ := Int.le_floor.mpr (by push_cast; linarith)
  omega

/-- C1: for a mission box of metric width `W`, cell footprint `w` and overlap
value `ov`, `check_data` computes exactly `⌊W / (w * (1 - ov))⌋` cells along
the axis (the `int` truncation agrees with the floor since the operand is
nonnegative), that count is at least 1, and the far edge of the last cell —
cells being placed by `gen_raster_from_map` at steps of
`w * (100 - ov) / 100` — misses the box's far edge `W` by less than one cell
width.  The same function is applied to each axis; the counts are computed
once in `check_data` and only read afterwards. -/
theorem c1_grid_dimensions (W w ov : ℚ) (hw : 0 < w) (ho0 : 0 ≤ ov) (ho1 : ov < 1)
    (hW : w * (1 - ov) ≤ W) :
    n_raster_imgs W w ov = ⌊W / (w * (1 - ov))⌋ ∧
      1 ≤ n_raster_imgs W w ov ∧
      W - (((n_raster_imgs W w ov : ℚ) - 1) * (w * (100 - ov) / 100) + w) < w := by
  have hov : 0 < 1 - ov := by linarith
  have hs : 0 < w * (1 - ov) := by positivity
  have hdiv1 : 1 ≤ W / (w * (1 - ov)) := (one_le_div hs).mpr hW
  have hdiv0 : 0 ≤ W / (w * (1 - ov)) := by linarith
  have hfloor : n_raster_imgs W w ov = ⌊W / (w * (1 - ov))⌋ := by
    unfold n_raster_imgs pyIntQ
    rw [if_pos hdiv0]
  have hone : 1 ≤ n_raster_imgs W w ov := by
    rw [hfloor]
    exact Int.le_floor.mpr (by exact_mod_cast hdiv1)
  refine ⟨hfloor, hone, ?_⟩
  have hcq : W / (w * (1 - ov)) - 1 < (n_raster_imgs W w ov : ℚ) := by
    rw [hfloor]
    exact Int.sub_one_lt_floor _
  have hc1 : (1 : ℚ) ≤ (n_raster_imgs W w ov : ℚ) := by exact_mod_cast hone
  have hstep : w * (1 - ov) ≤ w * (100 - ov) / 100 := by nlinarith
  have h1 : ((n_raster_imgs W w ov : ℚ) - 1) * (w * (1 - ov)) ≤
      ((n_raster_imgs W w ov : ℚ) - 1) * (w * (100 - ov) / 100) :=
    mul_le_mul_of_nonneg_left hstep (by linarith)
  have h2 : (W / (w * (1 - ov)) - 2) * (w * (1 - ov)) <
      ((n_raster_imgs W w ov : ℚ) - 1) * (w * (1 - ov)) :=
    mul_lt_mul_of_pos_right (by linarith) hs
  have h3 : (W / (w * (1 - ov)) - 2) * (w * (1 - ov)) = W - 2 * (w * (1 - ov)) := by
    field_simp
    ring
  have h4 : w * (1 - ov) ≤ w := by nlinarith
  linarith

/-- C2: resuming from an existing latest file whose name parses to
`(i_last, j_last, phi, lamda)`: (1) if `(i_last+1, j_last+1)` equals the grid
dimensions, `gen_raster_from_map` reports the mission complete and downloads
nothing; (2) otherwise the resume cursor is exactly the row-major successor of
the last cell — advancing the column and stepping east by
`raster_wx * (1 - overlap/100)` projected meters when not at the last column,
else wrapping to column 0 of the next row, stepping south by
`raster_wy * (1 - overlap/100)` and resetting `x` to the row's starting
`x = tlm.1`; (3) every cell the resumed walk saves lies strictly after the
last cell in row-major order, so no existing file is re-requested or
overwritten. -/
theorem c2_resumption (P : RasterParams) (nm : List Char) (i_last j_last : ℤ)
    (phi lamda : ℚ)
    (hparse : parse_img_name nm = some (i_last, j_last, phi, lamda))
    (hi0 : 0 ≤ i_last) (hix : i_last < P.n_images_x)
    (hj0 : 0 ≤ j_last) (hjy : j_last < P.n_images_y) :
    ((i_last + 1 = P.n_images_x ∧ j_last + 1 = P.n_images_y) →
        gen_raster_from_map P (some nm) = ([], none)) ∧
      (∀ x y : ℚ,
        (i_last < P.n_images_x - 1 →
          resume_cursor P i_last j_last x y =
            (i_last + 1, j_last, x + P.raster_wx * (1 - P.overlap / 100), y)) ∧
        (¬i_last < P.n_images_x - 1 →
          resume_cursor P i_last j_last x y =
            (0, j_last + 1, P.tlm.1, y - P.raster_wy * (1 - P.overlap / 100))) ∧
        (resume_cursor P i_last j_last x y).2.1 * P.n_images_x +
            (resume_cursor P i_last j_last x y).1 =
          j_last * P.n_images_x + i_last + 1) ∧
      (∀ c ∈ (gen_raster_from_map P (some nm)).1,
        j_last * P.n_images_x + i_last < c.j * P.n_images_x + c.i) := by
  have hnx : 0 < P.n_images_x := by omega
  refine ⟨?_, ?_, ?_⟩
  · intro hdone
    simp only [gen_raster_from_map, hparse, if_pos hdone]
  · intro x y
    by_cases hcol : i_last < P.n_images_x - 1
    · refine ⟨fun _ => ?_, fun h => absurd hcol h, ?_⟩
      · have hx : x + P.raster_wx * (100 - P.overlap) / 100 =
            x + P.raster_wx * (1 - P.overlap / 100) := by ring
        simp only [resume_cursor, if_pos hcol, hx]
      · simp only [resume_cursor, if_pos hcol]
        ring
    · have hlastcol : i_last = P.n_images_x - 1 := by omega
      refine ⟨fun h => absurd h hcol, fun _ => ?_, ?_⟩
      · have hy : y - P.raster_wy * (100 - P.overlap) / 100 =
            y - P.raster_wy * (1 - P.overlap / 100) := by ring
        simp only [resume_cursor, if_neg hcol, hy]
      · simp only [resume_cursor, if_neg hcol]
        rw [hlastcol]
        ring
  · intro c hc
    by_cases hdone : i_last + 1 = P.n_images_x ∧ j_last + 1 = P.n_images_y
    · simp only [gen_raster_from_map, hparse, if_pos hdone] at hc
      simp at hc
    · simp only [gen_raster_from_map, hparse, if_neg hdone] at hc
      obtain ⟨hj, hji, hipos⟩ := walkRowsAux_mem P _ _ _ _ _ _ _ c hc
      by_cases hcol : i_last < P.n_images_x - 1
      · have hr1 : (resume_cursor P i_last j_last (P.geo2utm (phi, lamda)).1
            (P.geo2utm (phi, lamda)).2).1 = i_last + 1 := by
          simp [resume_cursor, if_pos hcol]
        have hr2 : (resume_cursor P i_last j_last (P.geo2utm (phi, lamda)).1
            (P.geo2utm (phi, lamda)).2).2.1 = j_last := by
          simp [resume_cursor, if_pos hcol]
        rw [hr2] at hj
        rw [hr2, hr1] at hji
        rw [hr1] at hipos
        rcases lt_or_eq_of_le hj with hlt | heq
        · have h1 : j_last + 1 ≤ c.j := by omega
          have h2 : (0:ℤ) ≤ c.i := hipos (by omega)
          nlinarith
        · have h2 : i_last + 1 ≤ c.i := hji heq.symm
          rw [← heq]
          nlinarith
      · have hlastcol : i_last = P.n_images_x - 1 := by omega
        have hr1 : (resume_cursor P i_last j_last (P.geo2utm (phi, lamda)).1
            (P.geo2utm (phi, lamda)).2).1 = 0 := by
          simp [resume_cursor, if_neg hcol]
        have hr2 : (resume_cursor P i_last j_last (P.geo2utm (phi, lamda)).1
            (P.geo2utm (phi, lamda)).2).2.1 = j_last + 1 := by
          simp [resume_cursor, if_neg hcol]
        rw [hr2] at hj
        rw [hr1] at hipos
        have h2 : (0:ℤ) ≤ c.i := hipos le_rfl
        nlinarith

/-- Witness for C2: a 3×2 mission resuming from the file
`1_0_35.5_-89.5_19.jpg` with identity projections. -/
theorem c2_resumption_witness :
    parse_img_name "1_0_35.5_-89.5_19.jpg".toList = some (1, 0, 71/2, -179/2) ∧
      (0:ℤ) ≤ 1 ∧ (1:ℤ) < sampleParams.n_images_x ∧
      (0:ℤ) ≤ 0 ∧ (0:ℤ) < sampleParams.n_images_y ∧
      (((1 + 1 = sampleParams.n_images_x ∧ 0 + 1 = sampleParams.n_images_y) →
          gen_raster_from_map sampleParams (some "1_0_35.5_-89.5_19.jpg".toList) =
            ([], none)) ∧
        (∀ x y : ℚ,
          ((1:ℤ) < sampleParams.n_images_x - 1 →
            resume_cursor sampleParams 1 0 x y =
              (1 + 1, 0, x + sampleParams.raster_wx * (1 - sampleParams.overlap / 100), y)) ∧
          (¬(1:ℤ) < sampleParams.n_images_x - 1 →
            resume_cursor sampleParams 1 0 x y =
              (0, 0 + 1, sampleParams.tlm.1,
                y - sampleParams.raster_wy * (1 - sampleParams.overlap / 100))) ∧
          (resume_cursor sampleParams 1 0 x y).2.1 * sampleParams.n_images_x +
              (resume_cursor sampleParams 1 0 x y).1 =
            0 * sampleParams.n_images_x + 1 + 1) ∧
        (∀ c ∈ (gen_raster_from_map sampleParams
            (some "1_0_35.5_-89.5_19.jpg".toList)).1,
          0 * sampleParams.n_images_x + 1 <
            c.j * sampleParams.n_images_x + c.i)) :=
  have hsplit : splitOnChar '_' (pyDropRight "1_0_35.5_-89.5_19.jpg".toList 4) =
      [['1'], ['0'], ['3', '5', '.', '5'], ['-', '8', '9', '.', '5'], ['1', '9']] := by
    decide
  have hfloat1 : parseFloat ['3', '5', '.', '5'] = some (71/2) := by
    simp +decide [parseFloat, parseDecMantissa, parseNatAux, digitVal, splitOnChar]
    norm_num
  have hfloat2 : parseFloat ['-', '8', '9', '.', '5'] = some (-179/2) := by
    simp +decide [parseFloat, parseDecMantissa, parseNatAux, digitVal, splitOnChar]
    norm_num
  have hparse : parse_img_name "1_0_35.5_-89.5_19.jpg".toList =
      some (1, 0, 71/2, -179/2) := by
    unfold parse_img_name
    rw [hsplit]
    simp +decide [hfloat1, hfloat2, parseInt, parseNatAux, digitVal]
  ⟨hparse, by decide, by decide, by decide, by decide,
    c2_resumption sampleParams "1_0_35.5_-89.5_19.jpg".toList 1 0 (71/2) (-179/2)
      hparse (by decide) (by decide) (by decide) (by decide)⟩

/-- C3: during the grid walk, a cell whose current geographic position fails
the tolerance check (`phi < br_lat - raster_wx - 0.02` or
`lamda > br_lon + raster_wy + 0.02`) makes the walk raise `OutOfBounds` as the
first action of the loop body: no name is formed, no tile is fetched, no cell
is saved for it or any later cell; and when a row aborts with an exception the
cells saved before the abort are exactly the cells returned — nothing already
written is removed. -/
theorem c3_bounds_enforcement (P : RasterParams) (i j : ℤ) (x y phi lamda : ℚ)
    (g : ℕ) (e : PyErr) (h : oobCond P phi lamda) (hi : i < P.n_images_x) :
    walkRowAux P (P.n_images_x - i).toNat i j x y phi lamda =
        ([], some PyErr.outOfBounds) ∧
      walkRowsAux P (g + 1) j i x y phi lamda = ([], some PyErr.outOfBounds) ∧
      (∀ (i0 j0 : ℤ) (x0 y0 phi0 lamda0 : ℚ),
        (walkRowAux P (P.n_images_x - i0).toNat i0 j0 x0 y0 phi0 lamda0).2 = some e →
          walkRowsAux P (g + 1) j0 i0 x0 y0 phi0 lamda0 =
            ((walkRowAux P (P.n_images_x - i0).toNat i0 j0 x0 y0 phi0 lamda0).1,
              some e)) := by
  obtain ⟨k, hk⟩ : ∃ k, (P.n_images_x - i).toNat = k + 1 := ⟨(P.n_images_x - i).toNat - 1, by omega⟩
  have hrow : walkRowAux P (P.n_images_x - i).toNat i j x y phi lamda =
      ([], some PyErr.outOfBounds) := by
    rw [hk, walkRowAux, if_pos h]
  refine ⟨hrow, ?_, ?_⟩
  · rw [walkRowsAux, hrow]
  · intro i0 j0 x0 y0 phi0 lamda0 herr
    rw [walkRowsAux]
    rw [show (walkRowAux P (P.n_images_x - i0).toNat i0 j0 x0 y0 phi0 lamda0) =
        ((walkRowAux P (P.n_images_x - i0).toNat i0 j0 x0 y0 phi0 lamda0).1, some e) from
      by rw [← herr]]

/-- Witness for C3: a cursor at latitude −2000 on the sample mission is far
below the bottom-right corner's tolerance band. -/
theorem c3_bounds_enforcement_witness :
    oobCond sampleParams (-2000) 0 ∧ (0:ℤ) < sampleParams.n_images_x ∧
      (walkRowAux sampleParams (sampleParams.n_images_x - 0).toNat 0 0 0 0 (-2000) 0 =
          ([], some PyErr.outOfBounds) ∧
        walkRowsAux sampleParams (0 + 1) 0 0 0 0 (-2000) 0 =
          ([], some PyErr.outOfBounds) ∧
        (∀ (i0 j0 : ℤ) (x0 y0 phi0 lamda0 : ℚ),
          (walkRowAux sampleParams (sampleParams.n_images_x - i0).toNat
              i0 j0 x0 y0 phi0 lamda0).2 = some PyErr.outOfBounds →
            walkRowsAux sampleParams (0 + 1) j0 i0 x0 y0 phi0 lamda0 =
              ((walkRowAux sampleParams (sampleParams.n_images_x - i0).toNat
                  i0 j0 x0 y0 phi0 lamda0).1, some PyErr.outOfBounds))) :=
  have hoob : oobCond sampleParams (-2000) 0 := by
    unfold oobCond sampleParams
    norm_num
  ⟨hoob, by decide,
    c3_bounds_enforcement sampleParams 0 0 0 0 (-2000) 0 0 PyErr.outOfBounds
      hoob (by decide)⟩

/-- C10: resumption parses the latest file name strictly — whenever the name
(minus its four-character extension) does not split into exactly five
underscore-separated fields with the first two parsing as integers and the
middle two as floats, `gen_raster_from_map` raises the exception immediately:
nothing is downloaded and nothing is written. -/
theorem c10_strict_name_parsing (P : RasterParams) (nm : List Char)
    (h : parse_img_name nm = none) :
    gen_raster_from_map P (some nm) = ([], some PyErr.valueError) := by
  simp only [gen_raster_from_map, h]

/-- Witness for C10: the malformed name `map.jpg`. -/
theorem c10_strict_name_parsing_witness :
    parse_img_name "map.jpg".toList = none ∧
      gen_raster_from_map sampleParams (some "map.jpg".toList) =
        ([], some PyErr.valueError) :=
  ⟨by decide, c10_strict_name_parsing sampleParams "map.jpg".toList (by decide)⟩

/-- Witness for C1 at `W = 10`, `w = 3`, `ov = 0`. -/
theorem c1_grid_dimensions_witness :
    (0:ℚ) < 3 ∧ (0:ℚ) ≤ 0 ∧ (0:ℚ) < 1 ∧ (3:ℚ) * (1 - 0) ≤ 10 ∧
      (n_raster_imgs 10 3 0 = ⌊(10:ℚ) / (3 * (1 - 0))⌋ ∧
        1 ≤ n_raster_imgs 10 3 0 ∧
        (10:ℚ) - (((n_raster_imgs 10 3 0 : ℚ) - 1) * (3 * (100 - 0) / 100) + 3) < 3) :=
  ⟨by norm_num, by norm_num, by norm_num, by norm_num,
    c1_grid_dimensions 10 3 0 (by norm_num) (by norm_num) (by norm_num) (by norm_num)⟩
